import Mathlib

/-
Shallow embedding of the pixelrs terminal canvas and its peer-session layer
(src/screen.rs, src/draw_term.rs, src/constants.rs).

Conventions: Rust i32 values are modelled as Int; u16/u8/usize values as Nat
(with explicit range checks where the source performs unchecked u16 arithmetic);
Vec and VecDeque as List (front of the deque = head of the list).  Terminal and
network writes have no effect on the data model and are dropped; the
state-transforming part of every operation is translated clause by clause.
-/

namespace PixelRS

/- crossterm's Color type, restricted to the variants the program constructs. -/
inductive Color where
  | Reset : Color
  | White : Color
  | AnsiValue : Nat → Color
  deriving DecidableEq

/- screen.rs: TermChar -/
structure TermChar where
  character : Char
  foreground_color : Color
  background_color : Color
  empty : Bool
  deriving DecidableEq

/- constants.rs -/
def MAX_FAILED_SENT_ON_QUEUE : Nat := 16

def EMPTY_TERM_CHAR : TermChar :=
  { character := ' ', foreground_color := Color.Reset, background_color := Color.Reset,
    empty := true }

/- screen.rs: Pixel -/
structure Pixel where
  color : Color
  deriving DecidableEq

/- Pixel::to_chars: one row of two identical non-empty cells. -/
def Pixel.to_chars (p : Pixel) : List (List TermChar) :=
  [[{ character := ' ', foreground_color := p.color, background_color := p.color, empty := false },
    { character := ' ', foreground_color := p.color, background_color := p.color, empty := false }]]

/- screen.rs: Item -/
structure Item where
  name : String
  offset : Int × Int
  chars : List (List TermChar)
  deriving DecidableEq

/- Item::screen_position: the item's offset plus the sum of the container offsets. -/
def Item.screen_position (it : Item) (containers_offsets : List (Int × Int)) : Int × Int :=
  containers_offsets.foldl (fun p q => (p.1 + q.1, p.2 + q.2)) it.offset

/- Inner loop of Item::get_filled_indexes: one row of cells, the column counter
starting at c; a coordinate is pushed for each non-empty cell. -/
def rowFilled (x0 y0 : Int) (r : Nat) : Nat → List TermChar → List (Int × Int)
  | _, [] => []
  | c, tc :: rest =>
      (if tc.empty then [] else [(x0 + (c : Int), y0 + (r : Int))]) ++
        rowFilled x0 y0 r (c + 1) rest

/- Outer loop of Item::get_filled_indexes over the rows, the row counter starting at r. -/
def gridFilled (x0 y0 : Int) : Nat → List (List TermChar) → List (Int × Int)
  | _, [] => []
  | r, rowVec :: rest => rowFilled x0 y0 r 0 rowVec ++ gridFilled x0 y0 (r + 1) rest

/- Item::get_filled_indexes -/
def Item.get_filled_indexes (it : Item) (c_offset : Int × Int) : List (Int × Int) :=
  gridFilled (it.screen_position [c_offset]).1 (it.screen_position [c_offset]).2 0 it.chars

/- screen.rs: Layer -/
structure Layer where
  name : String
  width : Nat
  height : Nat
  offset : Int × Int
  items : List Item
  deriving DecidableEq

/- Layer::new_empty -/
def Layer.new_empty (name : String) (width height : Nat) (offset : Int × Int) : Layer :=
  { name := name, width := width, height := height, offset := offset, items := [] }

/- Layer::relative_position -/
def Layer.relative_position (L : Layer) (col row : Nat) : Int × Int :=
  ((col : Int) - L.offset.1, (row : Int) - L.offset.2)

/- Layer::add_item: push at the end of the item list. -/
def Layer.add_item (L : Layer) (item : Item) : Layer :=
  { L with items := L.items ++ [item] }

/- Layer::move_layer -/
def Layer.move_layer (L : Layer) (displacement : Int × Int) : Layer :=
  { L with offset := (L.offset.1 + displacement.1, L.offset.2 + displacement.2) }

/- Layer::get_item_at_absolute: first item (in insertion order) whose filled
index set contains the coordinate. -/
def Layer.get_item_at_absolute (L : Layer) (p : Int × Int) : Option Item :=
  L.items.find? fun item => decide (p ∈ item.get_filled_indexes L.offset)

theorem mem_rowFilled (x0 y0 : Int) (r : Nat) :
    ∀ (l : List TermChar) (c : Nat) (q : Int × Int),
      q ∈ rowFilled x0 y0 r c l ↔
        ∃ j : Nat, ∃ hj : j < l.length,
          (l.get ⟨j, hj⟩).empty = false ∧
          q = (x0 + (c : Int) + (j : Int), y0 + (r : Int)) := by
  intro l
  induction l with
  | nil =>
      intro c q
      simp [rowFilled]
  | cons tc rest ih =>
      intro c q
      rw [show rowFilled x0 y0 r c (tc :: rest)
            = (if tc.empty then [] else [(x0 + (c : Int), y0 + (r : Int))]) ++
                rowFilled x0 y0 r (c + 1) rest from rfl]
      rw [List.mem_append, ih (c + 1) q]
      constructor
      · rintro (hin | ⟨j, hj, hemp, hq⟩)
        · by_cases he : tc.empty
          · simp [he] at hin
          · simp [he] at hin
            refine ⟨0, by simp, by simpa using he, ?_⟩
            rw [hin, Prod.mk.injEq]
            constructor <;> omega
        · refine ⟨j + 1, by simp only [List.length_cons]; omega, by simpa using hemp, ?_⟩
          rw [hq, Prod.mk.injEq]
          constructor <;> omega
      · rintro ⟨j, hj, hemp, hq⟩
        cases j with
        | zero =>
            left
            have he : tc.empty = false := by simpa using hemp
            simp [he]
            rw [hq, Prod.mk.injEq]
            constructor <;> omega
        | succ j =>
            right
            refine ⟨j, by simp only [List.length_cons] at hj; omega, by simpa using hemp, ?_⟩
            rw [hq, Prod.mk.injEq]
            constructor <;> omega

theorem mem_gridFilled (x0 y0 : Int) :
    ∀ (rows : List (List TermChar)) (r : Nat) (q : Int × Int),
      q ∈ gridFilled x0 y0 r rows ↔
        ∃ i : Nat, ∃ hi : i < rows.length, ∃ j : Nat, ∃ hj : j < (rows.get ⟨i, hi⟩).length,
          ((rows.get ⟨i, hi⟩).get ⟨j, hj⟩).empty = false ∧
          q = (x0 + (j : Int), y0 + (r : Int) + (i : Int)) := by
  intro rows
  induction rows with
  | nil =>
      intro r q
      simp [gridFilled]
  | cons rowVec rest ih =>
      intro r q
      rw [show gridFilled x0 y0 r (rowVec :: rest)
            = rowFilled x0 y0 r 0 rowVec ++ gridFilled x0 y0 (r + 1) rest from rfl]
      rw [List.mem_append, ih (r + 1) q, mem_rowFilled x0 y0 r rowVec 0 q]
      constructor
      · rintro (⟨j, hj, hemp, hq⟩ | ⟨i, hi, j, hj, hemp, hq⟩)
        · refine ⟨0, by simp, j, by simpa using hj, by simpa using hemp, ?_⟩
          rw [hq, Prod.mk.injEq]
          constructor <;> omega
        · refine ⟨i + 1, by simp only [List.length_cons]; omega, j, by simpa using hj,
            by simpa using hemp, ?_⟩
          rw [hq, Prod.mk.injEq]
          constructor <;> omega
      · rintro ⟨i, hi, j, hj, hemp, hq⟩
        cases i with
        | zero =>
            left
            refine ⟨j, by simpa using hj, by simpa using hemp, ?_⟩
            rw [hq, Prod.mk.injEq]
            constructor <;> omega
        | succ i =>
            right
            refine ⟨i, by simp only [List.length_cons] at hi; omega, j, by simpa using hj,
              by simpa using hemp, ?_⟩
            rw [hq, Prod.mk.injEq]
            constructor <;> omega

/-- C5: for an Item with offset (ox,oy) and its grid of cells, under container
offset C, get_filled_indexes contains a coordinate exactly when it is of the
form (C.x + ox + c, C.y + oy + r) for some grid position (row r, column c)
whose cell is non-transparent (empty flag false), and contains no others. -/
theorem C5_get_filled_indexes_exact (it : Item) (C : Int × Int) (q : Int × Int) :
    q ∈ it.get_filled_indexes C ↔
      ∃ r c : Nat, ∃ hr : r < it.chars.length, ∃ hc : c < (it.chars.get ⟨r, hr⟩).length,
        ((it.chars.get ⟨r, hr⟩).get ⟨c, hc⟩).empty = false ∧
        q = (C.1 + it.offset.1 + (c : Int), C.2 + it.offset.2 + (r : Int)) := by
  have hsp : it.screen_position [C] = (it.offset.1 + C.1, it.offset.2 + C.2) := rfl
  rw [show it.get_filled_indexes C
        = gridFilled (it.screen_position [C]).1 (it.screen_position [C]).2 0 it.chars from rfl]
  rw [hsp, mem_gridFilled]
  constructor
  · rintro ⟨i, hi, j, hj, hemp, hq⟩
    refine ⟨i, j, hi, hj, hemp, ?_⟩
    rw [hq]
    have h1 : it.offset.1 + C.1 + (j : Int) = C.1 + it.offset.1 + (j : Int) := by ring
    have h2 : it.offset.2 + C.2 + ((0 : Nat) : Int) + (i : Int)
        = C.2 + it.offset.2 + (i : Int) := by push_cast; ring
    rw [h1, h2]
  · rintro ⟨r, c, hr, hc, hemp, hq⟩
    refine ⟨r, hr, c, hc, hemp, ?_⟩
    rw [hq]
    have h1 : it.offset.1 + C.1 + (c : Int) = C.1 + it.offset.1 + (c : Int) := by ring
    have h2 : it.offset.2 + C.2 + ((0 : Nat) : Int) + (r : Int)
        = C.2 + it.offset.2 + (r : Int) := by push_cast; ring
    rw [h1, h2]

/-- Witness for C5 at a concrete input: a 1x2 all-filled item with offset (2,3)
under container offset (1,1) fills exactly the cells (3,4) and (4,4). -/
theorem C5_get_filled_indexes_exact_witness :
    ((3 : Int), (4 : Int)) ∈
      (Item.mk "w" (2, 3) (Pixel.mk (Color.AnsiValue 5)).to_chars).get_filled_indexes (1, 1) := by
  rw [C5_get_filled_indexes_exact]
  exact ⟨0, 0, by decide, by decide, by decide, by decide⟩

/-- C6: panning a layer by (dx,dy) and then by (-dx,-dy) restores the layer's
offset and every item's rendered absolute position; each pan changes only the
layer's offset, leaving the item list (hence every item's own offset) unchanged. -/
theorem C6_pan_roundtrip (L : Layer) (dx dy : Int) :
    (L.move_layer (dx, dy)).items = L.items ∧
    ((L.move_layer (dx, dy)).move_layer (-dx, -dy)).items = L.items ∧
    ((L.move_layer (dx, dy)).move_layer (-dx, -dy)).offset = L.offset ∧
    ∀ it : Item,
      it.screen_position [((L.move_layer (dx, dy)).move_layer (-dx, -dy)).offset] =
        it.screen_position [L.offset] := by
  have hoff : ((L.move_layer (dx, dy)).move_layer (-dx, -dy)).offset = L.offset := by
    show (L.offset.1 + dx + -dx, L.offset.2 + dy + -dy) = L.offset
    have h1 : L.offset.1 + dx + -dx = L.offset.1 := by ring
    have h2 : L.offset.2 + dy + -dy = L.offset.2 := by ring
    rw [h1, h2]
  exact ⟨rfl, rfl, hoff, fun it => by rw [hoff]⟩

/-- Witness for C6 at a concrete input: panning a singleton layer by (5,-7) and
back restores the offset and an item's screen position. -/
theorem C6_pan_roundtrip_witness :
    (((Layer.new_empty "background" 80 24 (1, 2)).move_layer (5, -7)).move_layer
        (-5, 7)).offset = (1, 2) := by
  have h := C6_pan_roundtrip (Layer.new_empty "background" 80 24 (1, 2)) 5 (-7)
  exact h.2.2.1

/- draw_term.rs: the wire message payloads. -/
structure SerializableErase where
  abs_x : Int
  abs_y : Int
  deriving DecidableEq

structure SerializableTermChar where
  abs_x : Int
  abs_y : Int
  character : Char
  foreground_color : Nat
  background_color : Nat
  empty : Bool
  deriving DecidableEq

/- draw_term.rs: enum Update.  The Sync variant wraps SerializebleSync, a record
holding one field, the list of placements; it is modelled by that list. -/
inductive Update where
  | TermChar : SerializableTermChar → Update
  | Erase : SerializableErase → Update
  | Sync : List SerializableTermChar → Update
  deriving DecidableEq

/- The 1x2 item named "pixel" built by on_netowrk_update_events for an inbound
Update::TermChar. -/
def inboundPixelItem (tc : SerializableTermChar) : Item :=
  { name := "pixel",
    offset := (tc.abs_x, tc.abs_y),
    chars := [[{ character := tc.character,
                 foreground_color := Color.AnsiValue tc.foreground_color,
                 background_color := Color.AnsiValue tc.background_color,
                 empty := tc.empty },
               { character := tc.character,
                 foreground_color := Color.AnsiValue tc.foreground_color,
                 background_color := Color.AnsiValue tc.background_color,
                 empty := tc.empty }]] }

/- Effect of one decoded inbound update on the background layer (the match body
of on_netowrk_update_events; the screen drawing it also performs is I/O only). -/
def applyUpdate (u : Update) (L : Layer) : Layer :=
  match u with
  | Update.TermChar tc => L.add_item (inboundPixelItem tc)
  | Update.Erase e =>
      match L.get_item_at_absolute (e.abs_x + L.offset.1, e.abs_y + L.offset.2) with
      | some item => { L with items := L.items.filter fun i => decide (i.offset ≠ item.offset) }
      | none => L
  | Update.Sync _ => L

/- UTF-8 validity of a byte sequence, as checked by String::from_utf8 (same
automaton as Rust's core validator: continuation ranges, no overlong forms, no
surrogates, max U+10FFFF).  The state is (continuation bytes still expected,
lower and upper bound for the next byte). -/
def utf8ValidAux : Nat × Nat × Nat → List Nat → Bool
  | (0, _, _), [] => true
  | (_ + 1, _, _), [] => false
  | (0, _, _), b :: rest =>
      if b < 0x80 then utf8ValidAux (0, 0x80, 0xBF) rest
      else if b < 0xC2 then false
      else if b < 0xE0 then utf8ValidAux (1, 0x80, 0xBF) rest
      else if b = 0xE0 then utf8ValidAux (2, 0xA0, 0xBF) rest
      else if b = 0xED then utf8ValidAux (2, 0x80, 0x9F) rest
      else if b < 0xF0 then utf8ValidAux (2, 0x80, 0xBF) rest
      else if b = 0xF0 then utf8ValidAux (3, 0x90, 0xBF) rest
      else if b < 0xF4 then utf8ValidAux (3, 0x80, 0xBF) rest
      else if b = 0xF4 then utf8ValidAux (3, 0x80, 0x8F) rest
      else false
  | (n + 1, lo, hi), b :: rest =>
      if lo ≤ b ∧ b ≤ hi then utf8ValidAux (n, 0x80, 0xBF) rest else false

def utf8Valid (l : List Nat) : Bool := utf8ValidAux (0, 0x80, 0xBF) l

/- on_netowrk_update_events (name as in the source): drains the inbound queue.
Each record passes through String::from_utf8(...).unwrap() — a panic on invalid
UTF-8, modelled as Except.error — and then serde_json::from_str, modelled by
the decoder parameter fromStr (serde_json is an external library; the loop's
behaviour is proved for every decoder).  A decode failure is logged and the
loop continues with the next record. -/
def on_netowrk_update_events (fromStr : List Nat → Option Update) :
    List (List Nat) → Layer → Except Unit Layer
  | [], L => Except.ok L
  | record :: rest, L =>
      if utf8Valid record then
        match fromStr record with
        | none => on_netowrk_update_events fromStr rest L
        | some u => on_netowrk_update_events fromStr rest (applyUpdate u L)
      else Except.error ()

/- A concrete background layer holding one 1x2 "pixel" item at offset (0,0),
used as the concrete state of several witnesses. -/
def itemA : Item :=
  { name := "pixel", offset := (0, 0), chars := (Pixel.mk (Color.AnsiValue 3)).to_chars }

def L7 : Layer :=
  { name := "background", width := 80, height := 24, offset := (0, 0), items := [itemA] }

/-- C3 (amended): an inbound record that is valid UTF-8 but does not decode to
an Update is logged and dropped: the loop neither aborts nor changes the layer
for it, and it continues with the remaining records exactly as if the record
had not been present.  (A record that is not valid UTF-8 instead aborts, see
the counterexample.) -/
theorem C3_malformed_record_skipped (fromStr : List Nat → Option Update)
    (record : List Nat) (rest : List (List Nat)) (L : Layer)
    (hvalid : utf8Valid record = true) (hmal : fromStr record = none) :
    on_netowrk_update_events fromStr (record :: rest) L
      = on_netowrk_update_events fromStr rest L := by
  simp [on_netowrk_update_events, hvalid, hmal]

/-- Witness for C3 at a concrete input: the two ASCII bytes of the record do not
decode, so the loop result equals processing the remaining record alone. -/
theorem C3_malformed_record_skipped_witness :
    on_netowrk_update_events (fun _ => none) [[123, 125], [10]] L7
      = on_netowrk_update_events (fun _ => none) [[10]] L7 :=
  C3_malformed_record_skipped (fun _ => none) [123, 125] [[10]] L7 (by decide) rfl

/-- C3 counterexample: the inbound byte record [255] is not decodable as an
Update (it is not even valid UTF-8), yet the loop does not log-and-discard it:
String::from_utf8(...).unwrap() panics (modelled as Except.error), aborting the
processing of this and every subsequent record — so the claim as stated fails. -/
theorem C3_counterexample :
    on_netowrk_update_events (fun _ => none) [[255], [10]] L7 = Except.error () := rfl

/-- C7: applying an inbound CellErasure with coordinates (x,y) on a background
layer with pan offset (offx,offy) looks up an item at (x+offx, y+offy); if one
is found the item list is filtered by that item's offset — in particular the
found item itself is removed — and if none is found the item list is unchanged. -/
theorem C7_cell_erasure_apply (L : Layer) (e : SerializableErase) :
    (L.get_item_at_absolute (e.abs_x + L.offset.1, e.abs_y + L.offset.2) = none →
      applyUpdate (Update.Erase e) L = L) ∧
    ∀ item : Item,
      L.get_item_at_absolute (e.abs_x + L.offset.1, e.abs_y + L.offset.2) = some item →
        (applyUpdate (Update.Erase e) L).items
            = L.items.filter (fun i => decide (i.offset ≠ item.offset)) ∧
          item ∉ (applyUpdate (Update.Erase e) L).items := by
  constructor
  · intro h
    simp [applyUpdate, h]
  · intro item h
    have hres : (applyUpdate (Update.Erase e) L).items
        = L.items.filter fun i => decide (i.offset ≠ item.offset) := by
      simp [applyUpdate, h]
    refine ⟨hres, ?_⟩
    rw [hres]
    intro hmem
    have hkeep := (List.mem_filter.mp hmem).2
    simp at hkeep

/-- Witness for C7 at a concrete input: erasing at (0,0) on a layer with pan
offset (0,0) holding one pixel item at (0,0) leaves an empty item list. -/
theorem C7_cell_erasure_apply_witness :
    (applyUpdate (Update.Erase (SerializableErase.mk 0 0)) L7).items = [] := by
  have h := (C7_cell_erasure_apply L7 (SerializableErase.mk 0 0)).2 itemA (by decide)
  rw [h.1]
  decide

/-- C10: applying an inbound CellPlacement appends one new 1x2-cell item named
"pixel" at the message's absolute coordinates to the end of the background
layer's item list, growing it by exactly one and leaving all existing items
unchanged; a repeated placement appends a second, duplicate item. -/
theorem C10_cell_placement_append (tc : SerializableTermChar) (L : Layer) :
    (applyUpdate (Update.TermChar tc) L).items = L.items ++ [inboundPixelItem tc] ∧
    (applyUpdate (Update.TermChar tc) L).items.length = L.items.length + 1 ∧
    (inboundPixelItem tc).name = "pixel" ∧
    (inboundPixelItem tc).offset = (tc.abs_x, tc.abs_y) ∧
    (inboundPixelItem tc).chars.length = 1 ∧
    ((inboundPixelItem tc).chars.headD []).length = 2 ∧
    (applyUpdate (Update.TermChar tc) (applyUpdate (Update.TermChar tc) L)).items
      = L.items ++ [inboundPixelItem tc, inboundPixelItem tc] := by
  refine ⟨rfl, by simp [applyUpdate, Layer.add_item], rfl, rfl, rfl, rfl, ?_⟩
  simp [applyUpdate, Layer.add_item]

/-- Witness for C10 at a concrete input: placing twice at (1,2) on the empty
background layer yields exactly two identical pixel items. -/
theorem C10_cell_placement_append_witness :
    (applyUpdate (Update.TermChar (SerializableTermChar.mk 1 2 'x' 3 3 false))
        (applyUpdate (Update.TermChar (SerializableTermChar.mk 1 2 'x' 3 3 false))
          (Layer.new_empty "background" 80 24 (0, 0)))).items.length = 2 := by
  have h := C10_cell_placement_append (SerializableTermChar.mk 1 2 'x' 3 3 false)
    (Layer.new_empty "background" 80 24 (0, 0))
  rw [h.2.2.2.2.2.2]
  decide

/- draw_term.rs: Client::broadcast_client_updates.  The TcpStream is an external
collaborator: ok i tells whether the i-th write_all call of this flush attempt
succeeds.  flushLoop is the first while loop; it returns (messages written in
order, remainder of pubsub when the loop stops, the failed deque). -/
def flushLoop (ok : Nat → Bool) : Nat → List (List Nat) →
    List (List Nat) × List (List Nat) × List (List Nat)
  | _, [] => ([], [], [])
  | i, m :: rest =>
      if ok i then
        let r := flushLoop ok (i + 1) rest
        (m :: r.1, r.2.1, r.2.2)
      else ([], rest, [m])

/- The second while loop: pop failed from the front, pushing onto the back of
pubsub, until failed is empty. -/
def requeueFailed (pubsub failed : List (List Nat)) : List (List Nat) × List (List Nat) :=
  (pubsub ++ failed, [])

/- for _ in 0..n: pop_front (a no-op once the deque is empty). -/
def popFront : Nat → List (List Nat) → List (List Nat)
  | 0, l => l
  | n + 1, l => popFront n l.tail

/- Client::broadcast_client_updates: returns (messages actually written, final
pubsub queue).  Note: the final trim pops remove_n entries from the local
failed deque — which the requeue loop has already emptied — so self.pubsub
itself is never shortened by the trim. -/
def broadcast_client_updates (ok : Nat → Bool) (pubsub : List (List Nat)) :
    List (List Nat) × List (List Nat) :=
  let r := flushLoop ok 0 pubsub
  let rq := requeueFailed r.2.1 r.2.2
  let remove_n := MAX_FAILED_SENT_ON_QUEUE - rq.2.length
  let _trimmed := popFront remove_n rq.2
  (r.1, rq.1)

/- A session history on the outbound pending queue: each step either enqueues
one encoded update (Client::publish pushes at the back) or runs one flush
attempt with write outcomes ok. -/
inductive QOp where
  | enqueue : List Nat → QOp
  | flush : (Nat → Bool) → QOp

def runOps : List QOp → List (List Nat) → List (List Nat)
  | [], q => q
  | QOp.enqueue m :: rest, q => runOps rest (q ++ [m])
  | QOp.flush ok :: rest, q => runOps rest (broadcast_client_updates ok q).2

/-- C1 evaluated at the failing input: after a sequence of 17 enqueues and one
flush attempt whose first write fails, the pending queue still holds all 17
messages, exceeding MAX_FAILED_SENT_ON_QUEUE = 16.  The trim in
broadcast_client_updates pops from the local failed deque after the requeue
loop has emptied it, so self.pubsub is never trimmed to the cap. -/
theorem C1_queue_never_trimmed :
    (runOps (List.replicate 17 (QOp.enqueue [0]) ++ [QOp.flush fun _ => false]) []).length = 17 ∧
    MAX_FAILED_SENT_ON_QUEUE
      < (runOps (List.replicate 17 (QOp.enqueue [0]) ++ [QOp.flush fun _ => false]) []).length := by
  constructor
  · rfl
  · decide

theorem flushLoop_first_fail (ok : Nat → Bool) :
    ∀ (q : List (List Nat)) (n i : Nat) (hi : i < q.length),
      ok (n + i) = false → (∀ j, j < i → ok (n + j) = true) →
      flushLoop ok n q = (q.take i, q.drop (i + 1), [q.get ⟨i, hi⟩]) := by
  intro q
  induction q with
  | nil =>
      intro n i hi
      exact absurd hi (by simp)
  | cons m rest ih =>
      intro n i hi hfail hpre
      cases i with
      | zero =>
          have h0 : ok n = false := by simpa using hfail
          simp [flushLoop, h0]
      | succ i =>
          have h0 : ok n = true := by simpa using hpre 0 (Nat.succ_pos i)
          have hi' : i < rest.length := by simpa using hi
          have hfail' : ok ((n + 1) + i) = false := by
            have he : (n + 1) + i = n + (i + 1) := by omega
            rw [he]; exact hfail
          have hpre' : ∀ j, j < i → ok ((n + 1) + j) = true := by
            intro j hj
            have he : (n + 1) + j = n + (j + 1) := by omega
            rw [he]; exact hpre (j + 1) (by omega)
          simp only [flushLoop, h0, if_true]
          rw [ih (n + 1) i hi' hfail' hpre']
          simp [List.take_succ_cons, List.drop_succ_cons]

/-- C4: a flush attempt writes messages strictly in queue order; if the first
write failure occurs at queue position i, exactly the first i messages were
written (in their queue order), the failing message is requeued at the tail,
flushing stops for the tick, and the later messages remain queued in their
relative order (ahead of the requeued one) for the next attempt. -/
theorem C4_flush_order (ok : Nat → Bool) (q : List (List Nat)) (i : Nat)
    (hi : i < q.length) (hfail : ok i = false) (hpre : ∀ j, j < i → ok j = true) :
    (broadcast_client_updates ok q).1 = q.take i ∧
    (broadcast_client_updates ok q).2 = q.drop (i + 1) ++ [q.get ⟨i, hi⟩] := by
  have h := flushLoop_first_fail ok q 0 i hi (by simpa using hfail)
    (by intro j hj; simpa using hpre j hj)
  constructor
  · show (flushLoop ok 0 q).1 = q.take i
    rw [h]
  · show (flushLoop ok 0 q).2.1 ++ (flushLoop ok 0 q).2.2
        = q.drop (i + 1) ++ [q.get ⟨i, hi⟩]
    rw [h]

/-- Witness for C4 at a concrete input: with three queued messages and the
second write failing, exactly the first message is written and the failing
message ends up behind the remaining one. -/
theorem C4_flush_order_witness :
    (broadcast_client_updates (fun j => decide (j = 0)) [[1], [2], [3]]).1 = [[1]] ∧
    (broadcast_client_updates (fun j => decide (j = 0)) [[1], [2], [3]]).2 = [[3], [2]] := by
  have h := C4_flush_order (fun j => decide (j = 0)) [[1], [2], [3]] 1
    (by decide) (by decide) (by decide)
  exact ⟨h.1, h.2⟩

/- draw_term.rs: enum Tool and enum Config. -/
inductive Tool where
  | Brush : Tool
  | Erase : Tool
  | Ink : Tool
  | Move : Tool
  | Text : Tool
  deriving DecidableEq

inductive Config where
  | None : Config
  | ColorSelection : Config
  | Connection : Config
  deriving DecidableEq

/- draw_term.rs: the DrawTerm state the claims' handlers act on.  screen.layers
is the fixed two-layer stack built in DrawTerm::new: bg = layers[0],
fg = layers[1]; width/height mirror screen.width/height.  The cursor and
cursor_info items live outside the layers and only feed terminal drawing, so
they are omitted, as is the terminal handle.  cfg models the config field. -/
structure DState where
  width : Nat
  height : Nat
  bg : Layer
  fg : Layer
  tool : Tool
  cfg : Config
  color_selected : Color
  typing : Bool
  resized : Bool
  last_cursor_position : Nat × Nat
  deriving DecidableEq

/- chars[0][0].background_color.  The index is total on every item the program
constructs (each has a non-empty first row). -/
def firstCellBg (it : Item) : Color :=
  ((it.chars.headD []).headD EMPTY_TERM_CHAR).background_color

/- erase_ansi_colors: leave color-selection mode and retain only foreground
items not named "color_selection_pixels" (the blanking redraw is I/O only). -/
def erase_ansi_colors (st : DState) : DState :=
  { st with cfg := Config.None,
            fg := { st.fg with
              items := st.fg.items.filter fun item =>
                decide (item.name ≠ "color_selection_pixels") } }

/- draw_ansi_colors: one swatch item per palette index c in 0..16 at
(2*c, screen height - 1), appended to the foreground layer in order. -/
def colorPixelItem (c : Nat) (height : Nat) : Item :=
  { name := "color_selection_pixels",
    offset := (2 * (c : Int), (height : Int) - 1),
    chars := (Pixel.mk (Color.AnsiValue c)).to_chars }

def draw_ansi_colors (st : DState) : DState :=
  { st with cfg := Config.ColorSelection,
            fg := { st.fg with
              items := st.fg.items ++ (List.range 16).map fun c =>
                colorPixelItem c st.height } }

/- The Item the Brush tool creates: name "P", offset = the click's
layer-relative position, a 1x2 pixel in the active color. -/
def mkBrushPixel (L : Layer) (col row : Nat) (color : Color) : Item :=
  { name := "P", offset := L.relative_position col row, chars := (Pixel.mk color).to_chars }

/- The per-tool pointer-down action of on_mouse_event (drawing and client
publishes are I/O only and do not change the screen state). -/
def toolAction (st : DState) (col row : Nat) : DState :=
  match st.tool with
  | Tool.Brush =>
      { st with bg := st.bg.add_item (mkBrushPixel st.bg col row st.color_selected) }
  | Tool.Erase =>
      match st.bg.get_item_at_absolute ((col : Int), (row : Int)) with
      | some item =>
          { st with bg := { st.bg with
              items := st.bg.items.filter fun i => decide (i.offset ≠ item.offset) } }
      | none => st
  | Tool.Ink =>
      match st.bg.get_item_at_absolute ((col : Int), (row : Int)) with
      | some item => { st with color_selected := firstCellBg item, tool := Tool.Brush }
      | none => { st with tool := Tool.Erase }
  | Tool.Move =>
      { st with bg := st.bg.move_layer ((col : Int) - (st.last_cursor_position.1 : Int),
          (row : Int) - (st.last_cursor_position.2 : Int)) }
  | Tool.Text =>
      if st.typing then st
      else { st with typing := true, last_cursor_position := (col, row) }

/- The Down(Left)/Drag(Left) branch of on_mouse_event.  The source first
returns if config == Connection, masks the column to its even neighbour
(column AND NOT(column mod 2), i.e. column - column mod 2), clears resized,
and hit-tests the foreground layer; a foreground hit is a palette pick (or a
no-op) and returns before the cursor/readout redraw and the final
last_cursor_position update. -/
def on_mouse_down (st : DState) (column row : Nat) : DState :=
  if st.cfg = Config.Connection then st
  else
    let col := column - column % 2
    let st1 : DState := { st with resized := false }
    match st1.fg.get_item_at_absolute ((col : Int), (row : Int)) with
    | some it =>
        if it.name = "color_selection_pixels" then
          erase_ansi_colors { st1 with color_selected := firstCellBg it }
        else st1
    | none =>
        let st2 := toolAction st1 col row
        if st2.typing then st2 else { st2 with last_cursor_position := (col, row) }

/- The non-typing KeyEventKind::Press branch of on_key_event for a Char key:
returns (exit flag, new state).  clear_screen / MoveTo / println are I/O only. -/
def on_key_press (st : DState) (c : Char) : Bool × DState :=
  if c = 'q' then (true, st)
  else if c = 'e' then (false, { st with tool := Tool.Erase })
  else if c = 'b' then (false, { st with tool := Tool.Brush })
  else if c = 'i' then (false, { st with tool := Tool.Ink })
  else if c = 'c' then
    match st.cfg with
    | Config.ColorSelection => (false, erase_ansi_colors st)
    | Config.Connection => (false, st)
    | Config.None =>
        (false, draw_ansi_colors
          (if st.tool = Tool.Erase then { st with tool := Tool.Brush } else st))
  else if c = 'm' then (false, { st with tool := Tool.Move })
  else if c = 'a' then (false, { st with tool := Tool.Text })
  else if c = 'x' then
    match st.cfg with
    | Config.Connection => (false, { st with cfg := Config.None })
    | _ => (false, { st with cfg := Config.Connection })
  else (false, st)

/- crossterm key codes reaching the typing branch. -/
inductive KeyCode where
  | Char : Char → KeyCode
  | Enter : KeyCode
  | Esc : KeyCode
  | Backspace : KeyCode
  | Other : KeyCode
  deriving DecidableEq

/- The typing branch of on_key_event (self.typing == true).  The source does
unchecked u16 arithmetic on the caret column (last_cursor_position.0 + 2 on a
character, last_cursor_position.0 - 2 on Backspace); a result outside the u16
range is a panic, modelled as Except.error. -/
def on_key_typing (st : DState) (k : KeyCode) : Except Unit DState :=
  match k with
  | KeyCode.Char c =>
      let charItem : Item :=
        { name := "char",
          offset := st.bg.relative_position st.last_cursor_position.1
            st.last_cursor_position.2,
          chars := [[{ character := c, foreground_color := st.color_selected,
                       background_color := Color.Reset, empty := false },
                     EMPTY_TERM_CHAR]] }
      if st.last_cursor_position.1 + 2 < 65536 then
        Except.ok { st with
          bg := st.bg.add_item charItem,
          last_cursor_position := (st.last_cursor_position.1 + 2, st.last_cursor_position.2) }
      else Except.error ()
  | KeyCode.Enter | KeyCode.Esc =>
      Except.ok { st with typing := false, tool := Tool.Brush }
  | KeyCode.Backspace =>
      if 2 ≤ st.last_cursor_position.1 then
        match st.bg.get_item_at_absolute
            (((st.last_cursor_position.1 - 2 : Nat) : Int),
              (st.last_cursor_position.2 : Int)) with
        | some item =>
            Except.ok { st with
              bg := { st.bg with
                items := st.bg.items.filter fun i => decide (i.offset ≠ item.offset) },
              last_cursor_position :=
                (st.last_cursor_position.1 - 2, st.last_cursor_position.2) }
        | none => Except.ok st
      else Except.error ()
  | KeyCode.Other => Except.ok st

theorem find?_append_none {α : Type} (p : α → Bool) :
    ∀ l1 l2 : List α, l1.find? p = none → (l1 ++ l2).find? p = l2.find? p := by
  intro l1
  induction l1 with
  | nil =>
      intro l2 _
      rfl
  | cons a l ih =>
      intro l2 h
      by_cases hp : p a
      · rw [List.find?_cons_of_pos _ hp] at h
        exact absurd h (by simp)
      · rw [List.find?_cons_of_neg _ hp] at h
        rw [List.cons_append, List.find?_cons_of_neg _ hp]
        exact ih l2 h

/- The filled cells of a freshly brushed pixel under the layer's own offset:
exactly the clicked absolute cell and its right neighbour. -/
theorem mkBrushPixel_filled (L : Layer) (col row : Nat) (color : Color) :
    (mkBrushPixel L col row color).get_filled_indexes L.offset
      = [((col : Int), (row : Int)), ((col : Int) + 1, (row : Int))] := by
  show gridFilled ((col : Int) - L.offset.1 + L.offset.1)
      ((row : Int) - L.offset.2 + L.offset.2) 0 (Pixel.mk color).to_chars
      = [((col : Int), (row : Int)), ((col : Int) + 1, (row : Int))]
  have hx : (col : Int) - L.offset.1 + L.offset.1 = (col : Int) := by ring
  have hy : (row : Int) - L.offset.2 + L.offset.2 = (row : Int) := by ring
  rw [hx, hy]
  show [((col : Int) + ((0 : Nat) : Int), (row : Int) + ((0 : Nat) : Int)),
        ((col : Int) + ((1 : Nat) : Int), (row : Int) + ((0 : Nat) : Int))] = _
  simp

/- Looking up the clicked position after appending an item that covers it, on a
layer where no earlier item covers it, finds exactly the appended item. -/
theorem get_item_at_add_item (L : Layer) (p : Int × Int) (it : Item)
    (hnone : L.get_item_at_absolute p = none)
    (hmem : p ∈ it.get_filled_indexes L.offset) :
    (L.add_item it).get_item_at_absolute p = some it := by
  show (L.items ++ [it]).find? (fun item => decide (p ∈ item.get_filled_indexes L.offset))
      = some it
  rw [find?_append_none _ _ _ hnone]
  simp [List.find?, hmem]

/- Filtering the appended list by the new item's offset removes exactly the new
item when no old item shares that offset. -/
theorem filter_add_item (l : List Item) (it : Item)
    (hall : ∀ x ∈ l, x.offset ≠ it.offset) :
    (l ++ [it]).filter (fun i => decide (i.offset ≠ it.offset)) = l := by
  rw [List.filter_append]
  have h1 : l.filter (fun i => decide (i.offset ≠ it.offset)) = l :=
    List.filter_eq_self.mpr (by intro a ha; simpa using hall a ha)
  have h2 : [it].filter (fun i => decide (i.offset ≠ it.offset)) = [] := by simp
  rw [h1, h2, List.append_nil]

/- A Brush pointer-down not over a foreground item: field-level description. -/
theorem on_mouse_down_brush_eq (st : DState) (column row : Nat)
    (hcfg : st.cfg ≠ Config.Connection) (htool : st.tool = Tool.Brush)
    (hfg : st.fg.get_item_at_absolute
        (((column - column % 2 : Nat) : Int), (row : Int)) = none) :
    (on_mouse_down st column row).bg
        = st.bg.add_item (mkBrushPixel st.bg (column - column % 2) row st.color_selected) ∧
    (on_mouse_down st column row).fg = st.fg ∧
    (on_mouse_down st column row).cfg = st.cfg ∧
    (on_mouse_down st column row).tool = st.tool ∧
    (on_mouse_down st column row).color_selected = st.color_selected := by
  cases hty : st.typing <;>
    simp [on_mouse_down, if_neg hcfg, hfg, toolAction, htool, hty]

/- An Erase pointer-down not over a foreground item, with an item found at the
clicked position on the background layer. -/
theorem on_mouse_down_erase_eq (st : DState) (column row : Nat)
    (hcfg : st.cfg ≠ Config.Connection) (htool : st.tool = Tool.Erase)
    (hfg : st.fg.get_item_at_absolute
        (((column - column % 2 : Nat) : Int), (row : Int)) = none)
    (item : Item)
    (hfind : st.bg.get_item_at_absolute
        (((column - column % 2 : Nat) : Int), (row : Int)) = some item) :
    (on_mouse_down st column row).bg.items
        = st.bg.items.filter fun i => decide (i.offset ≠ item.offset) := by
  cases hty : st.typing <;>
    simp [on_mouse_down, if_neg hcfg, hfg, toolAction, htool, hty, hfind]

/-- C2 (amended): provided that, before the Brush action, no background item's
filled-position set contains the (even-masked) pointer coordinate and no
background item's offset equals the pointer's layer-relative position, a Brush
pointer-down followed by switching the tool to Erase and an Erase pointer-down
at the same coordinate restores the background layer's item list — in
particular its item count.  (Without these side conditions the Erase removes
every item sharing the offset of the first item found at the coordinate, which
can change the count: see the counterexample.) -/
theorem C2_brush_erase_count (st : DState) (column row : Nat)
    (hcfg : st.cfg ≠ Config.Connection)
    (htool : st.tool = Tool.Brush)
    (hfg : st.fg.get_item_at_absolute
        (((column - column % 2 : Nat) : Int), (row : Int)) = none)
    (hcover : st.bg.get_item_at_absolute
        (((column - column % 2 : Nat) : Int), (row : Int)) = none)
    (hoff : ∀ it ∈ st.bg.items,
        it.offset ≠ st.bg.relative_position (column - column % 2) row) :
    (on_mouse_down ((on_key_press (on_mouse_down st column row) 'e').2) column row).bg.items
        = st.bg.items ∧
    (on_mouse_down ((on_key_press (on_mouse_down st column row) 'e').2)
        column row).bg.items.length
      = st.bg.items.length := by
  have h1 := on_mouse_down_brush_eq st column row hcfg htool hfg
  have hkey : (on_key_press (on_mouse_down st column row) 'e').2
      = { on_mouse_down st column row with tool := Tool.Erase } := rfl
  rw [hkey]
  have hcfgE : ({ on_mouse_down st column row with tool := Tool.Erase } : DState).cfg
      ≠ Config.Connection := by
    show (on_mouse_down st column row).cfg ≠ Config.Connection
    rw [h1.2.2.1]; exact hcfg
  have hfgE : ({ on_mouse_down st column row with tool := Tool.Erase } : DState).fg.get_item_at_absolute
      (((column - column % 2 : Nat) : Int), (row : Int)) = none := by
    show (on_mouse_down st column row).fg.get_item_at_absolute _ = none
    rw [h1.2.1]; exact hfg
  have hmem : (((column - column % 2 : Nat) : Int), ((row : Nat) : Int)) ∈
      (mkBrushPixel st.bg (column - column % 2) row st.color_selected).get_filled_indexes
        st.bg.offset := by
    rw [mkBrushPixel_filled]
    exact List.mem_cons_self _ _
  have hfindE : ({ on_mouse_down st column row with tool := Tool.Erase } : DState).bg.get_item_at_absolute
      (((column - column % 2 : Nat) : Int), (row : Int))
      = some (mkBrushPixel st.bg (column - column % 2) row st.color_selected) := by
    show (on_mouse_down st column row).bg.get_item_at_absolute _ = _
    rw [h1.1]
    exact get_item_at_add_item st.bg _ _ hcover hmem
  have h2 := on_mouse_down_erase_eq
    { on_mouse_down st column row with tool := Tool.Erase } column row
    hcfgE rfl hfgE _ hfindE
  have hbgE : ({ on_mouse_down st column row with tool := Tool.Erase } : DState).bg.items
      = st.bg.items ++ [mkBrushPixel st.bg (column - column % 2) row st.color_selected] := by
    show (on_mouse_down st column row).bg.items = _
    rw [h1.1]
    rfl
  rw [h2, hbgE]
  have hres := filter_add_item st.bg.items
    (mkBrushPixel st.bg (column - column % 2) row st.color_selected)
    (by intro x hx; exact hoff x hx)
  rw [hres]
  exact ⟨rfl, rfl⟩

/- Concrete states for the witnesses and counterexamples. -/
def st0 : DState :=
  { width := 80, height := 24,
    bg := Layer.new_empty "background" 80 24 (0, 0),
    fg := Layer.new_empty "foreground" 80 24 (0, 0),
    tool := Tool.Brush, cfg := Config.None,
    color_selected := Color.AnsiValue 2,
    typing := false, resized := false, last_cursor_position := (0, 0) }

/-- Witness for C2 at a concrete input: on an empty background layer, Brush at
(4,5) then Erase at (4,5) leaves the item count at 0. -/
theorem C2_brush_erase_count_witness :
    (on_mouse_down ((on_key_press (on_mouse_down st0 4 5) 'e').2) 4 5).bg.items.length
      = st0.bg.items.length := by
  have h := C2_brush_erase_count st0 4 5 (by decide) rfl rfl rfl
    (by intro it hit; simp [st0, Layer.new_empty] at hit)
  exact h.2

/- A background layer holding one pre-existing brush pixel at offset (0,0)
covering the origin, and the Brush-tool state over it. -/
def LC : Layer :=
  { name := "background", width := 80, height := 24, offset := (0, 0),
    items := [{ name := "P", offset := (0, 0),
                chars := (Pixel.mk (Color.AnsiValue 1)).to_chars }] }

def stC : DState := { st0 with bg := LC }

/-- C2 counterexample: starting from a background layer that already holds one
pixel item at the clicked cell (e.g. a previous Brush at the same spot), Brush
at (0,0) then Erase at (0,0) drops the count from 1 to 0 — the Erase removes
both the old item (found first, in insertion order) and the new one, because
they share an offset.  The claim, quantified over every starting state, fails. -/
theorem C2_counterexample :
    (on_mouse_down ((on_key_press (on_mouse_down stC 0 0) 'e').2) 0 0).bg.items.length
      ≠ stC.bg.items.length := by
  decide

/-- C8: on an Ink pointer-down not over a foreground overlay item, if the
background lookup finds an item (the first, in insertion order, whose
filled-position set contains the pointer position) the active color becomes
that item's background color (its cell [0][0]) and the tool becomes Brush; if
it finds none — equivalently, no background item's filled-position set contains
the pointer position — the tool becomes Erase and the active color is
unchanged. -/
theorem C8_ink_pick (st : DState) (column row : Nat)
    (hcfg : st.cfg ≠ Config.Connection) (htool : st.tool = Tool.Ink)
    (hfg : st.fg.get_item_at_absolute
        (((column - column % 2 : Nat) : Int), (row : Int)) = none) :
    (∀ item : Item,
      st.bg.get_item_at_absolute
          (((column - column % 2 : Nat) : Int), (row : Int)) = some item →
        (on_mouse_down st column row).tool = Tool.Brush ∧
        (on_mouse_down st column row).color_selected = firstCellBg item) ∧
    (st.bg.get_item_at_absolute
        (((column - column % 2 : Nat) : Int), (row : Int)) = none →
      (on_mouse_down st column row).tool = Tool.Erase ∧
      (on_mouse_down st column row).color_selected = st.color_selected) ∧
    (st.bg.get_item_at_absolute
        (((column - column % 2 : Nat) : Int), (row : Int)) = none ↔
      ∀ it ∈ st.bg.items,
        ((((column - column % 2 : Nat) : Int), (row : Int)) : Int × Int)
          ∉ it.get_filled_indexes st.bg.offset) := by
  refine ⟨?_, ?_, ?_⟩
  · intro item hfind
    cases hty : st.typing <;>
      simp [on_mouse_down, if_neg hcfg, hfg, toolAction, htool, hty, hfind]
  · intro hfind
    cases hty : st.typing <;>
      simp [on_mouse_down, if_neg hcfg, hfg, toolAction, htool, hty, hfind]
  · show List.find? _ _ = none ↔ _
    rw [List.find?_eq_none]
    constructor
    · intro h it hit hmem
      exact absurd (by simpa using hmem) (by simpa using h it hit)
    · intro h it hit
      simpa using h it hit

/- Ink-tool state over the one-pixel background layer L7. -/
def stI : DState := { st0 with bg := L7, tool := Tool.Ink }

/-- Witness for C8 at a concrete input: Ink over the pixel at (0,0) adopts its
background color AnsiValue 3 and switches the tool to Brush. -/
theorem C8_ink_pick_witness :
    (on_mouse_down stI 0 0).tool = Tool.Brush ∧
    (on_mouse_down stI 0 0).color_selected = Color.AnsiValue 3 := by
  have h := (C8_ink_pick stI 0 0 (by decide) rfl (by decide)).1 itemA (by decide)
  exact ⟨h.1, by rw [h.2]; rfl⟩

/-- C9: in Text capture mode, Backspace computes the preceding caret position
by the unchecked u16 subtraction caret column - 2: for every caret column at
least 2 the handler is well defined (returns a state), while for caret column
0 or 1 the subtraction underflows the u16 range and the error branch is
reached (modelled as Except.error), at this public-interface edge. -/
theorem C9_backspace_unchecked_sub (st : DState) :
    (2 ≤ st.last_cursor_position.1 →
      ∃ st2 : DState, on_key_typing st KeyCode.Backspace = Except.ok st2) ∧
    (st.last_cursor_position.1 < 2 →
      on_key_typing st KeyCode.Backspace = Except.error ()) := by
  constructor
  · intro h
    rw [show on_key_typing st KeyCode.Backspace
          = if 2 ≤ st.last_cursor_position.1 then
              match st.bg.get_item_at_absolute
                  (((st.last_cursor_position.1 - 2 : Nat) : Int),
                    (st.last_cursor_position.2 : Int)) with
              | some item =>
                  Except.ok { st with
                    bg := { st.bg with
                      items := st.bg.items.filter fun i => decide (i.offset ≠ item.offset) },
                    last_cursor_position :=
                      (st.last_cursor_position.1 - 2, st.last_cursor_position.2) }
              | none => Except.ok st
            else Except.error () from rfl]
    rw [if_pos h]
    cases hfind : st.bg.get_item_at_absolute
        (((st.last_cursor_position.1 - 2 : Nat) : Int),
          (st.last_cursor_position.2 : Int)) with
    | none => exact ⟨st, rfl⟩
    | some item => exact ⟨_, rfl⟩
  · intro h
    have h2 : ¬ 2 ≤ st.last_cursor_position.1 := by omega
    rw [show on_key_typing st KeyCode.Backspace
          = if 2 ≤ st.last_cursor_position.1 then
              match st.bg.get_item_at_absolute
                  (((st.last_cursor_position.1 - 2 : Nat) : Int),
                    (st.last_cursor_position.2 : Int)) with
              | some item =>
                  Except.ok { st with
                    bg := { st.bg with
                      items := st.bg.items.filter fun i => decide (i.offset ≠ item.offset) },
                    last_cursor_position :=
                      (st.last_cursor_position.1 - 2, st.last_cursor_position.2) }
              | none => Except.ok st
            else Except.error () from rfl]
    rw [if_neg h2]

/- Typing-mode state with the caret at column 0. -/
def st9 : DState := { st0 with tool := Tool.Text, typing := true }

/-- Witness for C9 at a concrete input: Backspace with the caret at column 0
underflows and hits the error branch. -/
theorem C9_backspace_unchecked_sub_witness :
    on_key_typing st9 KeyCode.Backspace = Except.error () :=
  (C9_backspace_unchecked_sub st9).2 (by decide)

end PixelRS
